import Mathlib

/-!
Verification of the blog repository's table-of-contents builder, static-path
generation and content-schema behaviour, by shallow embedding in Lean.
-/

namespace Blog

/-- A heading record as produced by the document renderer and consumed by the
table-of-contents builder: a text label, a nesting depth (an integer; the
builder distinguishes depths 2 and 3), and an anchor identifier. -/
structure HeadingRecord where
  text : String
  depth : Int
  anchorId : String
deriving DecidableEq, Repr

/-- A node of the table-of-contents tree: anchor identifier, text, and an
ordered sequence of child nodes. -/
inductive TocNode where
  | mk (anchorId : String) (text : String) (children : List TocNode)

def TocNode.anchorId : TocNode → String
  | .mk a _ _ => a

def TocNode.text : TocNode → String
  | .mk _ t _ => t

def TocNode.children : TocNode → List TocNode
  | .mk _ _ cs => cs

/-- Modelled from the spec: `generateTableOfContents` lives in
`src/components/tocHelpers`, which is imported by `PostLayout.astro` but whose
file is not among the sources; this is one iteration step of the algorithm of
spec §4.1.  The state is the result sequence of top-level nodes built so far
together with the "current" top-level node (initially none).  On a depth-2
record the current node is flushed to the result and a fresh childless node
becomes current; on a depth-3 record a childless node is appended to the
current node's children when a current node exists, and the record is silently
dropped otherwise; any other depth leaves the state unchanged. -/
def tocStep (s : List TocNode × Option TocNode) (h : HeadingRecord) :
    List TocNode × Option TocNode :=
  if h.depth = 2 then
    (s.1 ++ s.2.toList, some (TocNode.mk h.anchorId h.text []))
  else if h.depth = 3 then
    match s.2 with
    | some (TocNode.mk a t cs) =>
        (s.1, some (TocNode.mk a t (cs ++ [TocNode.mk h.anchorId h.text []])))
    | none => s
  else
    s

/-- Flush the pending current node to the end of the result sequence. -/
def tocFinish (s : List TocNode × Option TocNode) : List TocNode :=
  s.1 ++ s.2.toList

/-- Modelled from the spec: the table-of-contents builder of spec §4.1 (the
missing `generateTableOfContents` of `src/components/tocHelpers`): fold
`tocStep` over the heading sequence starting from an empty result and no
current node, then flush the final current node to the end of the result. -/
def generateTableOfContents (headings : List HeadingRecord) : List TocNode :=
  tocFinish (headings.foldl tocStep ([], none))

/-- The childless table-of-contents node made from one heading record. -/
def leafOf (h : HeadingRecord) : TocNode :=
  TocNode.mk h.anchorId h.text []

/-- The contiguous run of depth-3 records following a depth-2 record, up to
the next depth-2 record or the end of the sequence, as childless nodes. -/
def childrenRun (rest : List HeadingRecord) : List TocNode :=
  ((rest.takeWhile (fun r => !(r.depth == 2))).filter
    (fun r => r.depth == 3)).map leafOf

/-- Closed-form description of the builder output used to state the claims:
each depth-2 record yields one top-level node whose children are exactly the
`childrenRun` of the records after it; all other records yield no top-level
node. -/
def tocOfRuns : List HeadingRecord → List TocNode
  | [] => []
  | h :: rest =>
    if h.depth = 2 then
      TocNode.mk h.anchorId h.text (childrenRun rest) :: tocOfRuns rest
    else
      tocOfRuns rest

/-- A JavaScript `Date` value: either a valid date carrying a numeric
timestamp or the Invalid Date value produced by an unparseable input. -/
inductive JsDate where
  | valid (timestamp : Int)
  | invalid
deriving DecidableEq, Repr

/-- Numeric encoding of a calendar date; the claims depend only on whether a
date is valid, never on the encoded value. -/
def dateTimestamp (y m d : Nat) : Int :=
  (((y * 12 + m) * 31 + d) : Int) * 86400000

/-- Split a character sequence at every dash. -/
def splitDash : List Char → List (List Char)
  | [] => [[]]
  | c :: rest =>
    if c = '-' then
      [] :: splitDash rest
    else
      match splitDash rest with
      | [] => [[c]]
      | g :: gs => (c :: g) :: gs

/-- Read a non-empty all-digit character sequence as a number. -/
def digitsToNat (cs : List Char) : Option Nat :=
  if cs ≠ [] ∧ cs.all Char.isDigit then
    some (cs.foldl (fun n c => n * 10 + (c.toNat - 48)) 0)
  else
    none

/-- Models the JavaScript `new Date(string)` constructor as used in the posts
collection schema: an ISO `YYYY-MM-DD` string yields a valid date and any
other string yields the Invalid Date value; construction never throws. -/
def jsNewDate (s : String) : JsDate :=
  match splitDash s.toList with
  | [y, m, d] =>
    match digitsToNat y, digitsToNat m, digitsToNat d with
    | some yn, some mn, some dn =>
      if y.length = 4 ∧ m.length = 2 ∧ d.length = 2 ∧
          1 ≤ mn ∧ mn ≤ 12 ∧ 1 ≤ dn ∧ dn ≤ 31 then
        JsDate.valid (dateTimestamp yn mn dn)
      else
        JsDate.invalid
    | _, _, _ => JsDate.invalid
  | _ => JsDate.invalid

/-- A frontmatter value as zod sees it: a JSON scalar. -/
inductive JsonValue where
  | str (s : String)
  | num (n : Int)
  | boolean (b : Bool)
  | null
deriving DecidableEq, Repr

/-- Outcome of running a zod schema: a parsed value or a validation error. -/
inductive ZodResult (α : Type) where
  | ok (value : α)
  | error (message : String)
deriving DecidableEq, Repr

/-- Embeds `publishDate: z.string().transform((str) => new Date(str))` from
`src/content/config.ts`: `z.string()` rejects every non-string JSON value,
and on a string the transform applies `new Date` to it; the transform itself
can never fail. -/
def publishDateSchema : JsonValue → ZodResult JsDate
  | JsonValue.str s => ZodResult.ok (jsNewDate s)
  | _ => ZodResult.error "Expected string, received other"

/-- Frontmatter data of a post after schema validation, following the fields
of the posts collection schema in `src/content/config.ts`. -/
structure PostData where
  title : String
  summary : String
  tags : Option (List String)
  publishDate : JsDate
  bluesky : Option String
  draft : Option Bool
deriving DecidableEq, Repr

/-- A collection entry for a post: its slug and its validated data. -/
structure PostEntry where
  slug : String
  data : PostData
deriving DecidableEq, Repr

/-- One static path produced for a post: `params.slug` and `props.entry`. -/
structure PathEntry where
  slug : String
  entry : PostEntry
deriving DecidableEq, Repr

/-- Truthiness of the optional `draft` frontmatter flag: JavaScript treats a
missing field as `undefined`, which is falsy, so the flag is truthy exactly
when it is present and `true`. -/
def draftTruthy (e : PostEntry) : Bool :=
  e.data.draft.getD false

/-- Embeds `getStaticPaths` from the slug route (`src/unnamed/part_000`):
a `reduce` over the posts starting from an empty array that skips an entry
when `!entry.data.draft` holds and otherwise appends
`{ params: { slug: entry.slug }, props: { entry } }`. -/
def getStaticPaths (posts : List PostEntry) : List PathEntry :=
  posts.foldl
    (fun acc entry =>
      if !draftTruthy entry then
        acc
      else
        acc ++ [{ slug := entry.slug, entry := entry }])
    []

/-- Concrete depth-2 heading record used in witnesses and examples. -/
def recA : HeadingRecord := { text := "A", depth := 2, anchorId := "a" }

/-- Concrete depth-3 heading record used in witnesses and examples. -/
def recA1 : HeadingRecord := { text := "A.1", depth := 3, anchorId := "a-1" }

/-- Concrete depth-2 heading record used in witnesses and examples. -/
def recB : HeadingRecord := { text := "B", depth := 2, anchorId := "b" }

/-- Concrete depth-3 heading record used as an orphan sub-heading. -/
def recOrphan : HeadingRecord := { text := "X", depth := 3, anchorId := "x" }

/-- Concrete depth-4 heading record, a depth the builder ignores. -/
def recDeep : HeadingRecord := { text := "D", depth := 4, anchorId := "d" }

theorem childrenRun_cons (h : HeadingRecord) (rest : List HeadingRecord) :
    childrenRun (h :: rest) =
      if h.depth = 2 then []
      else if h.depth = 3 then leafOf h :: childrenRun rest
      else childrenRun rest := by
  by_cases h2 : h.depth = 2
  · simp [childrenRun, List.takeWhile_cons, h2]
  · by_cases h3 : h.depth = 3
    · simp [childrenRun, List.takeWhile_cons, List.filter_cons, h2, h3]
    · simp [childrenRun, List.takeWhile_cons, List.filter_cons, h2, h3]

theorem tocFinish_foldl_some (hs : List HeadingRecord) :
    ∀ (done : List TocNode) (a t : String) (cs : List TocNode),
    tocFinish (hs.foldl tocStep (done, some (TocNode.mk a t cs))) =
      done ++ TocNode.mk a t (cs ++ childrenRun hs) :: tocOfRuns hs := by
  induction hs with
  | nil =>
    intro done a t cs
    simp [tocFinish, childrenRun, tocOfRuns]
  | cons h rest ih =>
    intro done a t cs
    rw [List.foldl_cons]
    by_cases h2 : h.depth = 2
    · have hstep : tocStep (done, some (TocNode.mk a t cs)) h =
          (done ++ [TocNode.mk a t cs], some (TocNode.mk h.anchorId h.text [])) := by
        simp [tocStep, h2]
      rw [hstep, ih]
      simp [tocOfRuns, h2, childrenRun_cons]
    · by_cases h3 : h.depth = 3
      · have hstep : tocStep (done, some (TocNode.mk a t cs)) h =
            (done, some (TocNode.mk a t (cs ++ [TocNode.mk h.anchorId h.text []]))) := by
          simp [tocStep, h2, h3]
        rw [hstep, ih]
        simp [tocOfRuns, childrenRun_cons, h2, h3, leafOf]
      · have hstep : tocStep (done, some (TocNode.mk a t cs)) h =
            (done, some (TocNode.mk a t cs)) := by
          simp [tocStep, h2, h3]
        rw [hstep, ih]
        simp [tocOfRuns, childrenRun_cons, h2, h3]

theorem tocFinish_foldl_none (hs : List HeadingRecord) :
    ∀ done : List TocNode,
    tocFinish (hs.foldl tocStep (done, none)) = done ++ tocOfRuns hs := by
  induction hs with
  | nil =>
    intro done
    simp [tocFinish, tocOfRuns]
  | cons h rest ih =>
    intro done
    rw [List.foldl_cons]
    by_cases h2 : h.depth = 2
    · have hstep : tocStep (done, none) h =
          (done, some (TocNode.mk h.anchorId h.text [])) := by
        simp [tocStep, h2]
      rw [hstep, tocFinish_foldl_some]
      simp [tocOfRuns, h2]
    · by_cases h3 : h.depth = 3
      · have hstep : tocStep (done, none) h = (done, none) := by
          simp [tocStep, h2, h3]
        rw [hstep, ih]
        simp [tocOfRuns, h2]
      · have hstep : tocStep (done, none) h = (done, none) := by
          simp [tocStep, h2, h3]
        rw [hstep, ih]
        simp [tocOfRuns, h2]

theorem generateTableOfContents_eq_tocOfRuns (hs : List HeadingRecord) :
    generateTableOfContents hs = tocOfRuns hs := by
  rw [generateTableOfContents, tocFinish_foldl_none]
  simp

theorem tocOfRuns_getElem (pre : List HeadingRecord) :
    ∀ (h : HeadingRecord) (post : List HeadingRecord), h.depth = 2 →
    (tocOfRuns (pre ++ h :: post))[pre.countP (fun r => r.depth == 2)]? =
      some (TocNode.mk h.anchorId h.text (childrenRun post)) := by
  induction pre with
  | nil =>
    intro h post h2
    simp [tocOfRuns, h2]
  | cons p pre ih =>
    intro h post h2
    rw [List.cons_append]
    by_cases hp2 : p.depth = 2
    · rw [List.countP_cons]
      simp only [hp2]
      rw [show tocOfRuns (p :: (pre ++ h :: post)) =
            TocNode.mk p.anchorId p.text (childrenRun (pre ++ h :: post)) ::
              tocOfRuns (pre ++ h :: post) from by simp [tocOfRuns, hp2]]
      simpa using ih h post h2
    · rw [List.countP_cons]
      rw [show tocOfRuns (p :: (pre ++ h :: post)) =
            tocOfRuns (pre ++ h :: post) from by simp [tocOfRuns, hp2]]
      simpa [hp2] using ih h post h2

theorem leafOf_mem_childrenRun (mid : List HeadingRecord) :
    ∀ (d : HeadingRecord) (post : List HeadingRecord),
    (∀ r ∈ mid, r.depth ≠ 2) → d.depth = 3 →
    leafOf d ∈ childrenRun (mid ++ d :: post) := by
  induction mid with
  | nil =>
    intro d post _ h3
    have h2 : d.depth ≠ 2 := by rw [h3]; decide
    simp [childrenRun_cons, h2, h3]
  | cons m mid ih =>
    intro d post hmid h3
    have hm2 : m.depth ≠ 2 := hmid m (List.mem_cons_self m mid)
    have hrest : ∀ r ∈ mid, r.depth ≠ 2 := fun r hr =>
      hmid r (List.mem_cons_of_mem m hr)
    rw [List.cons_append, childrenRun_cons]
    by_cases hm3 : m.depth = 3
    · simp only [hm2, hm3, if_neg, if_pos, ite_true, ite_false]
      exact List.mem_cons_of_mem _ (ih d post hrest h3)
    · simp only [hm2, hm3, ite_false]
      exact ih d post hrest h3

theorem tocOfRuns_length (hs : List HeadingRecord) :
    (tocOfRuns hs).length = hs.countP (fun r => r.depth == 2) := by
  induction hs with
  | nil => rfl
  | cons h rest ih =>
    by_cases h2 : h.depth = 2
    · simp [tocOfRuns, List.countP_cons, h2, ih]
    · simp [tocOfRuns, List.countP_cons, h2, ih]

theorem tocOfRuns_map_anchorId (hs : List HeadingRecord) :
    (tocOfRuns hs).map TocNode.anchorId =
      (hs.filter (fun r => r.depth == 2)).map HeadingRecord.anchorId := by
  induction hs with
  | nil => rfl
  | cons h rest ih =>
    by_cases h2 : h.depth = 2
    · simp [tocOfRuns, List.filter_cons, h2, ih, TocNode.anchorId]
    · simp [tocOfRuns, List.filter_cons, h2, ih]

theorem tocStep_other (s : List TocNode × Option TocNode) (x : HeadingRecord)
    (hx2 : x.depth ≠ 2) (hx3 : x.depth ≠ 3) : tocStep s x = s := by
  simp [tocStep, hx2, hx3]

theorem tocStep_none_skip (done : List TocNode) (x : HeadingRecord)
    (hx : x.depth ≠ 2) : tocStep (done, none) x = (done, none) := by
  by_cases h3 : x.depth = 3 <;> simp [tocStep, hx, h3]

theorem foldl_tocStep_no_depth2 (pre : List HeadingRecord)
    (hpre : ∀ r ∈ pre, r.depth ≠ 2) :
    ∀ done : List TocNode, pre.foldl tocStep (done, none) = (done, none) := by
  induction pre with
  | nil => intro done; rfl
  | cons p pre ih =>
    intro done
    have hp : p.depth ≠ 2 := hpre p (List.mem_cons_self p pre)
    rw [List.foldl_cons, tocStep_none_skip done p hp]
    exact ih (fun r hr => hpre r (List.mem_cons_of_mem p hr)) done

theorem childrenRun_children_eq_nil (l : List HeadingRecord) :
    ∀ c ∈ childrenRun l, c.children = [] := by
  intro c hc
  rw [childrenRun, List.mem_map] at hc
  obtain ⟨r, _, rfl⟩ := hc
  rfl

theorem tocOfRuns_two_level (hs : List HeadingRecord) :
    ∀ n ∈ tocOfRuns hs, ∀ c ∈ n.children, c.children = [] := by
  induction hs with
  | nil => intro n hn; cases hn
  | cons h rest ih =>
    by_cases h2 : h.depth = 2
    · rw [show tocOfRuns (h :: rest) =
            TocNode.mk h.anchorId h.text (childrenRun rest) :: tocOfRuns rest
          from by simp [tocOfRuns, h2]]
      intro n hn
      rcases List.mem_cons.mp hn with hn | hn
      · subst hn
        intro c hc
        exact childrenRun_children_eq_nil rest c hc
      · exact ih n hn
    · rw [show tocOfRuns (h :: rest) = tocOfRuns rest from by
            simp [tocOfRuns, h2]]
      exact ih

theorem childrenRun_map_anchorId (l : List HeadingRecord) :
    (childrenRun l).map TocNode.anchorId =
      ((l.takeWhile (fun r => !(r.depth == 2))).filter
        (fun r => r.depth == 3)).map HeadingRecord.anchorId := by
  rw [childrenRun, List.map_map]
  rfl

/-- Claim C1: in the builder output, the children of each top-level node are
exactly the contiguous run of depth-3 records following its depth-2 record up
to the next depth-2 record or the end of the input; in particular a depth-3
record with at least one preceding depth-2 record becomes a child of the
nearest preceding depth-2 node. -/
theorem toc_children_exact_run :
    (∀ (pre : List HeadingRecord) (h : HeadingRecord) (post : List HeadingRecord),
      h.depth = 2 →
      (generateTableOfContents (pre ++ h :: post))[pre.countP
          (fun r => r.depth == 2)]? =
        some (TocNode.mk h.anchorId h.text (childrenRun post))) ∧
    (∀ (pre1 : List HeadingRecord) (g : HeadingRecord) (mid : List HeadingRecord)
        (d : HeadingRecord) (post : List HeadingRecord),
      g.depth = 2 → (∀ r ∈ mid, r.depth ≠ 2) → d.depth = 3 →
      ∃ node : TocNode,
        (generateTableOfContents (pre1 ++ g :: (mid ++ d :: post)))[pre1.countP
            (fun r => r.depth == 2)]? = some node ∧
          node.anchorId = g.anchorId ∧ leafOf d ∈ node.children) := by
  constructor
  · intro pre h post h2
    rw [generateTableOfContents_eq_tocOfRuns]
    exact tocOfRuns_getElem pre h post h2
  · intro pre1 g mid d post hg hmid hd
    refine ⟨TocNode.mk g.anchorId g.text (childrenRun (mid ++ d :: post)),
      ?_, rfl, ?_⟩
    · rw [generateTableOfContents_eq_tocOfRuns]
      exact tocOfRuns_getElem pre1 g (mid ++ d :: post) hg
    · exact leafOf_mem_childrenRun mid d post hmid hd

/-- Witness for C1 at concrete inputs. -/
theorem toc_children_exact_run_witness :
    ((generateTableOfContents ([recA, recA1] ++ recB :: [recA1]))[
        ([recA, recA1] : List HeadingRecord).countP (fun r => r.depth == 2)]? =
      some (TocNode.mk recB.anchorId recB.text (childrenRun [recA1]))) ∧
    (∃ node : TocNode,
      (generateTableOfContents ([] ++ recA :: ([recDeep] ++ recA1 :: [])))[
          ([] : List HeadingRecord).countP (fun r => r.depth == 2)]? = some node ∧
        node.anchorId = recA.anchorId ∧ leafOf recA1 ∈ node.children) :=
  ⟨toc_children_exact_run.1 [recA, recA1] recB [recA1] rfl,
   toc_children_exact_run.2 [] recA [recDeep] recA1 [] rfl
     (by intro r hr; simp at hr; subst hr; decide) rfl⟩

/-- Claim C2: a depth-3 record with no preceding depth-2 record contributes no
node anywhere: removing it from the input leaves the builder output unchanged,
and the builder reports no error (its result type has no error case). -/
theorem toc_orphan_dropped :
    ∀ (pre : List HeadingRecord) (d : HeadingRecord) (post : List HeadingRecord),
    (∀ r ∈ pre, r.depth ≠ 2) → d.depth = 3 →
    generateTableOfContents (pre ++ d :: post) =
      generateTableOfContents (pre ++ post) := by
  intro pre d post hpre hd
  have hd2 : d.depth ≠ 2 := by rw [hd]; decide
  unfold generateTableOfContents
  rw [List.foldl_append, List.foldl_append,
    foldl_tocStep_no_depth2 pre hpre, List.foldl_cons,
    tocStep_none_skip [] d hd2]

/-- Witness for C2 at concrete inputs. -/
theorem toc_orphan_dropped_witness :
    (∀ r ∈ ([recDeep] : List HeadingRecord), r.depth ≠ 2) ∧
    recOrphan.depth = 3 ∧
    generateTableOfContents ([recDeep] ++ recOrphan :: [recA]) =
      generateTableOfContents ([recDeep] ++ [recA]) :=
  ⟨by intro r hr; simp at hr; subst hr; decide, rfl,
   toc_orphan_dropped [recDeep] recOrphan [recA]
     (by intro r hr; simp at hr; subst hr; decide) rfl⟩

/-- Claim C3: the number of top-level nodes in the builder output equals the
number of depth-2 records in the input. -/
theorem toc_top_level_count (hs : List HeadingRecord) :
    (generateTableOfContents hs).length = hs.countP (fun r => r.depth == 2) := by
  rw [generateTableOfContents_eq_tocOfRuns]
  exact tocOfRuns_length hs

/-- Claim C4: the builder output preserves input order at both levels with no
duplication (the top-level anchors are exactly the anchors of the depth-2
records in order, and each node's child anchors are exactly the anchors of its
depth-3 run in order), and on the spec's example input the output is the
spec's example tree. -/
theorem toc_order_preserved :
    (∀ hs : List HeadingRecord,
      (generateTableOfContents hs).map TocNode.anchorId =
        (hs.filter (fun r => r.depth == 2)).map HeadingRecord.anchorId) ∧
    (∀ (pre : List HeadingRecord) (h : HeadingRecord) (post : List HeadingRecord),
      h.depth = 2 →
      ∃ node : TocNode,
        (generateTableOfContents (pre ++ h :: post))[pre.countP
            (fun r => r.depth == 2)]? = some node ∧
          node.children.map TocNode.anchorId =
            ((post.takeWhile (fun r => !(r.depth == 2))).filter
              (fun r => r.depth == 3)).map HeadingRecord.anchorId) ∧
    (generateTableOfContents [recA, recA1, recB]).map
        (fun n => (n.text, n.children.map TocNode.text)) =
      [("A", ["A.1"]), ("B", [])] := by
  refine ⟨?_, ?_, ?_⟩
  · intro hs
    rw [generateTableOfContents_eq_tocOfRuns]
    exact tocOfRuns_map_anchorId hs
  · intro pre h post h2
    refine ⟨TocNode.mk h.anchorId h.text (childrenRun post), ?_, ?_⟩
    · rw [generateTableOfContents_eq_tocOfRuns]
      exact tocOfRuns_getElem pre h post h2
    · exact childrenRun_map_anchorId post
  · rfl

/-- Witness for C4 at concrete inputs. -/
theorem toc_order_preserved_witness :
    ((generateTableOfContents [recA, recA1, recB]).map TocNode.anchorId =
      (([recA, recA1, recB] : List HeadingRecord).filter
        (fun r => r.depth == 2)).map HeadingRecord.anchorId) ∧
    recA.depth = 2 ∧
    (∃ node : TocNode,
      (generateTableOfContents ([] ++ recA :: [recA1, recB]))[
          ([] : List HeadingRecord).countP (fun r => r.depth == 2)]? = some node ∧
        node.children.map TocNode.anchorId =
          ((([recA1, recB] : List HeadingRecord).takeWhile
            (fun r => !(r.depth == 2))).filter
            (fun r => r.depth == 3)).map HeadingRecord.anchorId) :=
  ⟨toc_order_preserved.1 [recA, recA1, recB], rfl,
   toc_order_preserved.2.1 [] recA [recA1, recB] rfl⟩

/-- Claim C5: records whose depth is neither 2 nor 3 contribute nothing and do
not affect the rest of the output, and the output tree has depth at most two:
every child of a top-level node is childless. -/
theorem toc_ignores_other_depths :
    (∀ (pre : List HeadingRecord) (x : HeadingRecord) (post : List HeadingRecord),
      x.depth ≠ 2 → x.depth ≠ 3 →
      generateTableOfContents (pre ++ x :: post) =
        generateTableOfContents (pre ++ post)) ∧
    (∀ hs : List HeadingRecord, ∀ n ∈ generateTableOfContents hs,
      ∀ c ∈ n.children, c.children = []) := by
  constructor
  · intro pre x post hx2 hx3
    unfold generateTableOfContents
    rw [List.foldl_append, List.foldl_cons, tocStep_other _ x hx2 hx3,
      ← List.foldl_append]
  · intro hs
    rw [generateTableOfContents_eq_tocOfRuns]
    exact tocOfRuns_two_level hs

/-- Witness for C5 at concrete inputs. -/
theorem toc_ignores_other_depths_witness :
    (recDeep.depth ≠ 2 ∧ recDeep.depth ≠ 3 ∧
      generateTableOfContents ([recA] ++ recDeep :: [recA1]) =
        generateTableOfContents ([recA] ++ [recA1])) ∧
    (TocNode.mk "a" "A" [TocNode.mk "a-1" "A.1" []] ∈
        generateTableOfContents [recA, recA1] ∧
      TocNode.mk "a-1" "A.1" [] ∈
        (TocNode.mk "a" "A" [TocNode.mk "a-1" "A.1" []]).children ∧
      (TocNode.mk "a-1" "A.1" []).children = []) := by
  have mem1 : TocNode.mk "a" "A" [TocNode.mk "a-1" "A.1" []] ∈
      generateTableOfContents [recA, recA1] :=
    List.mem_singleton_self _
  have mem2 : TocNode.mk "a-1" "A.1" [] ∈
      (TocNode.mk "a" "A" [TocNode.mk "a-1" "A.1" []]).children :=
    List.mem_singleton_self _
  exact ⟨⟨by decide, by decide,
      toc_ignores_other_depths.1 [recA] recDeep [recA1] (by decide) (by decide)⟩,
    mem1, mem2,
    toc_ignores_other_depths.2 [recA, recA1] _ mem1 _ mem2⟩

/-- Claim C6: the builder maps the empty input sequence to the empty output
sequence. -/
theorem toc_empty : generateTableOfContents [] = [] := rfl

/-- Claim C7: the builder is total: every input sequence, of any depth values,
yields a result (of length at most the input length) — there is no failure
case in its result type. -/
theorem toc_total (hs : List HeadingRecord) :
    ∃ out : List TocNode,
      generateTableOfContents hs = out ∧ out.length ≤ hs.length :=
  ⟨generateTableOfContents hs, rfl, by
    rw [generateTableOfContents_eq_tocOfRuns, tocOfRuns_length]
    exact List.countP_le_length _⟩

/-- Claim C8: the builder is deterministic: two runs on the same input yield
structurally identical trees (propositional equality of the outputs). -/
theorem toc_deterministic (hs : List HeadingRecord) :
    generateTableOfContents hs = generateTableOfContents hs := rfl

theorem getStaticPaths_foldl (posts : List PostEntry) :
    ∀ acc : List PathEntry,
    posts.foldl
      (fun acc entry =>
        if !draftTruthy entry then
          acc
        else
          acc ++ [{ slug := entry.slug, entry := entry }])
      acc =
      acc ++ (posts.filter draftTruthy).map
        (fun e => { slug := e.slug, entry := e }) := by
  induction posts with
  | nil => intro acc; simp
  | cons p posts ih =>
    intro acc
    rw [List.foldl_cons]
    cases hp : draftTruthy p with
    | true =>
      rw [ih]
      simp [List.filter_cons, hp]
    | false =>
      rw [ih]
      simp [List.filter_cons, hp]

/-- Claim C9: `getStaticPaths` returns one path entry per post whose `draft`
flag is truthy, in input order, each carrying the post's slug as `params.slug`
and the post itself as `props.entry`; posts with `draft` unset or `false` are
excluded. -/
theorem getStaticPaths_drafts_only (posts : List PostEntry) :
    getStaticPaths posts =
      (posts.filter draftTruthy).map (fun e => { slug := e.slug, entry := e }) := by
  rw [getStaticPaths, getStaticPaths_foldl]
  simp

/-- Claim C10: the posts schema accepts every string for `publishDate` — the
`new Date` transform never fails — so an unparseable date string still
validates, yielding the Invalid Date value. -/
theorem publishDateSchema_accepts_any_string :
    (∀ s : String, publishDateSchema (JsonValue.str s) = ZodResult.ok (jsNewDate s)) ∧
    publishDateSchema (JsonValue.str "not-a-date") = ZodResult.ok JsDate.invalid :=
  ⟨fun _ => rfl, by decide⟩

end Blog
